import Mathlib

/-!
Verification development for the transcendental-equation solver repository
(`main.py`).  The continuation engine (`next_root`, `next_root_mp`,
`line_trace_sp`) and the grid scanners (`grid_solver`, `find_sign_change`,
`find_first_imag`) are shallowly embedded over exact rational arithmetic:

* complex machine numbers become pairs of rationals (`CQ`);
* the external root solvers (`sp.newton`, `mp.findroot`) are opaque
  numeric routines and are modelled as oracles `CQ → Option CQ`
  (`none` models the solver raising its convergence error);
* the trace array `points` becomes a list of `(x, y)` pairs stored
  most-recent-first, so Python's `points[-1]` is the list head and
  `np.vstack([points, p])` is `p :: points`;
* Python exceptions become `Except`: a `RuntimeError` from the solver is
  `SolverErr.conv`, the `ValueError` jump rejection is `SolverErr.jump`.
-/

/-- A complex number with exact rational components, modelling the
`numpy` complex scalars flowing through the solver. -/
structure CQ where
  re : ℚ
  im : ℚ
deriving DecidableEq

/-- The complex zero. -/
def czero : CQ := CQ.mk 0 0

/-- Componentwise addition of complex values. -/
def CQ.add (a b : CQ) : CQ := CQ.mk (a.re + b.re) (a.im + b.im)

/-- Componentwise subtraction of complex values. -/
def CQ.sub (a b : CQ) : CQ := CQ.mk (a.re - b.re) (a.im - b.im)

/-- Scaling of a complex value by a real (rational) factor; this is the
only multiplication the continuation formulas need. -/
def CQ.scale (q : ℚ) (a : CQ) : CQ := CQ.mk (q * a.re) (q * a.im)

instance : Add CQ := ⟨CQ.add⟩

instance : Sub CQ := ⟨CQ.sub⟩

/-- The comparison `np.abs(z) < c` for a nonnegative rational bound `c`,
phrased squarefree-ly as `re² + im² < c²` so it stays inside ℚ. -/
def CQ.absLt (a : CQ) (c : ℚ) : Prop := a.re * a.re + a.im * a.im < c * c

instance (a : CQ) (c : ℚ) : Decidable (a.absLt c) :=
  inferInstanceAs (Decidable (_ < _))

/-- The imaginary perturbation `1e-20` added to predictor guesses in
`next_root`. -/
def perturb : ℚ := 1 / 10 ^ 20

/-- The jump-rejection threshold `jump_limit = 0.1` of `next_root` and
`next_root_mp`. -/
def jump_limit : ℚ := 1 / 10

/-- The near-real snapping threshold `1e-5` used by `grid_solver`. -/
def snapTol : ℚ := 1 / 100000

/-- Python `points.all() == 0` on the trace array: true exactly when some
entry of the flattened array is zero (an x value `0` or a y value `0`),
since `ndarray.all()` is true iff every entry is nonzero. -/
def hasZeroEntry (pts : List (ℚ × CQ)) : Bool :=
  pts.any (fun p => decide (p.1 = 0) || decide (p.2 = czero))

/-- Errors escaping the continuation steppers: `conv` is the local
solver's convergence failure (`RuntimeError` from `sp.newton`, the
`ValueError` of `mp.findroot`); `jump` is the jump rejection
(`ValueError('Jump of ...')`) carrying the attempted root displacement,
the previous x, and the predicted y it reports. -/
inductive SolverErr where
  | conv : SolverErr
  | jump : CQ → ℚ → CQ → SolverErr
deriving DecidableEq

/-- Embedding of `next_root(func, x_loc, y_loc, step_size, arguments, points)`.

The solver oracle stands for `sp.newton(func, guess, args=arguments,
maxiter=200)`.  The dispatch mirrors the source's `try/except IndexError`:
with at least three trace points the quadratic predictor in the `try`
block runs; with fewer points the except handler first tests
`points.all() == 0` (some entry is zero: re-seed row 0 from `y_loc`),
then the one-point shape (zero-order bootstrap), then the two-point shape
(first-order predictor).  Accepted steps return
`(new_points, np.abs(step_size), None, x_loc)`. -/
def next_root (solver : CQ → Option CQ) (x_loc : ℚ) (y_loc : CQ)
    (step_size : ℚ) (points : List (ℚ × CQ)) :
    Except SolverErr (List (ℚ × CQ) × ℚ × Option ℚ × ℚ) :=
  match points with
  | (x1, y1) :: (x2, y2) :: (_, y3) :: _ =>
      let grad : CQ :=
        CQ.scale |step_size / (x1 - x2)|
          ((y1 - y2) + (y1 - CQ.scale 2 y2 + y3))
      match solver (y1 + grad + CQ.mk 0 perturb) with
      | none => .error .conv
      | some root =>
          if (root - y1).absLt jump_limit ∧ |x_loc - x1| < jump_limit then
            .ok ((x_loc, root) :: points, |step_size|, none, x_loc)
          else
            .error (.jump (root - y1) x1 (y1 + grad))
  | _ =>
      if hasZeroEntry points then
        match solver y_loc with
        | none => .error .conv
        | some root =>
            .ok (points.dropLast ++ [(x_loc, root)], |step_size|, none, x_loc)
      else
        match points with
        | [(_, y1)] =>
            match solver y1 with
            | none => .error .conv
            | some root =>
                .ok ((x_loc, root) :: points, |step_size|, none, x_loc)
        | [(x1, y1), (x2, y2)] =>
            let grad : CQ := CQ.scale |step_size / (x1 - x2)| (y1 - y2)
            match solver (y1 + grad + CQ.mk 0 perturb) with
            | none => .error .conv
            | some root =>
                if (root - y1).absLt jump_limit ∧ |x_loc - x1| < jump_limit then
                  .ok ((x_loc, root) :: points, |step_size|, none, x_loc)
                else
                  .error (.jump (root - y1) x1 (y1 + grad))
        | _ => .ok (points, |step_size|, none, x_loc)

/-- Embedding of `next_root_mp(func, x_loc, y_loc, step_size, points,
solver, tol)`.

The oracle stands for `mp.findroot` on the (flipped) arbitrary-precision
equation; `none` models its `ValueError` on non-convergence.  Structure as
in `next_root`, with the source's differences kept: the predictor guesses
carry no `1e-20j` perturbation, and the jump validation in the quadratic
and first-order regimes tests only `np.abs(root - points[-1, 1]) < 0.1` —
there is no check on `x_loc` here. -/
def next_root_mp (solver : CQ → Option CQ) (x_loc : ℚ) (y_loc : CQ)
    (step_size : ℚ) (points : List (ℚ × CQ)) :
    Except SolverErr (List (ℚ × CQ) × ℚ × Option ℚ × ℚ) :=
  match points with
  | (x1, y1) :: (x2, y2) :: (_, y3) :: _ =>
      let grad : CQ :=
        CQ.scale |step_size / (x1 - x2)|
          ((y1 - y2) + (y1 - CQ.scale 2 y2 + y3))
      match solver (y1 + grad) with
      | none => .error .conv
      | some root =>
          if (root - y1).absLt jump_limit then
            .ok ((x_loc, root) :: points, |step_size|, none, x_loc)
          else
            .error (.jump (root - y1) x1 (y1 + grad))
  | _ =>
      if hasZeroEntry points then
        match solver y_loc with
        | none => .error .conv
        | some root =>
            .ok (points.dropLast ++ [(x_loc, root)], |step_size|, none, x_loc)
      else
        match points with
        | [(_, y1)] =>
            match solver y1 with
            | none => .error .conv
            | some root =>
                .ok ((x_loc, root) :: points, |step_size|, none, x_loc)
        | [(x1, y1), (x2, y2)] =>
            let grad : CQ := CQ.scale |step_size / (x1 - x2)| (y1 - y2)
            match solver (y1 + grad) with
            | none => .error .conv
            | some root =>
                if (root - y1).absLt jump_limit then
                  .ok ((x_loc, root) :: points, |step_size|, none, x_loc)
                else
                  .error (.jump (root - y1) x1 (y1 + grad))
        | _ => .ok (points, |step_size|, none, x_loc)

/-- The predictor guess exactly as the specification words it: with at
least three points, `last_y + ((y₁−y₂) + (y₁−2·y₂+y₃)) · |step/(x₁−x₂)| +
1e-20i`; with exactly two points, the first-order fallback
`last_y + (y₁−y₂) · |step/(x₁−x₂)| + 1e-20i`; otherwise no prediction. -/
def specPredictGuess (step_size : ℚ) : List (ℚ × CQ) → Option CQ
  | (x1, y1) :: (x2, y2) :: (_, y3) :: _ =>
      some (y1 +
        CQ.scale |step_size / (x1 - x2)|
          ((y1 - y2) + (y1 - CQ.scale 2 y2 + y3)) +
        CQ.mk 0 perturb)
  | [(x1, y1), (x2, y2)] =>
      some (y1 + CQ.scale |step_size / (x1 - x2)| (y1 - y2) + CQ.mk 0 perturb)
  | _ => none

/-- The mutable loop state of one sweep of `line_trace_sp`: the trace so
far (most-recent-first), the current `step_size`, the current `x_loc` and
the shrink marker `x_error_loc`. -/
structure LoopState where
  points : List (ℚ × CQ)
  step_size : ℚ
  x_loc : ℚ
  x_error_loc : Option ℚ
deriving DecidableEq

/-- The `x_error_loc` bookkeeping block of `line_trace_sp` (both sweeps):
given this iteration's `x_error`, the stored `x_error_loc`, the current
`x_loc` and `step_size`, return the new `(x_error_loc, step_size)`.  The
restore branch fires when the step succeeded (`x_error is None`), a shrink
marker exists, and `np.abs(x_loc) - np.abs(x_error_loc) >= 10 * step_size`;
it then resets the step to `step_init`. -/
def update_after (x_error x_error_loc : Option ℚ) (x_loc step_size step_init : ℚ) :
    Option ℚ × ℚ :=
  match x_error, x_error_loc with
  | none, none => (none, step_size)
  | some e, none => (some e, step_size)
  | none, some l =>
      if |x_loc| - |l| ≥ 10 * step_size then (some l, step_init)
      else (some l, step_size)
  | some _, some l => (some l, step_size)

/-- The `try/except` of one leftward-sweep iteration of `line_trace_sp`:
attempt `next_root` with step `-step_size`; on `RuntimeError`/`ValueError`,
if `step_size >= step_init * 2**(-5)` retreat `x_loc` by the pre-halving
step and halve the step (recording `x_error`), otherwise call
`next_root_mp` on the flipped equation — whose own exceptions are not
caught here and therefore surface as the `Except.error` of the result. -/
def left_attempt (solver solver_mp : CQ → Option CQ) (y_loc : CQ)
    (step_init : ℚ) (st : LoopState) :
    Except SolverErr (List (ℚ × CQ) × ℚ × Option ℚ × ℚ) :=
  match next_root solver st.x_loc y_loc (-st.step_size) st.points with
  | .ok r => .ok r
  | .error _ =>
      if st.step_size ≥ step_init / 2 ^ 5 then
        .ok (st.points, st.step_size / 2, some (st.x_loc - st.step_size),
             st.x_loc - st.step_size)
      else
        next_root_mp solver_mp st.x_loc y_loc st.step_size st.points

/-- Tail of a leftward iteration: run the bookkeeping block on the
attempt's outcome, then advance `x_loc -= step_size`. -/
def finish_left (step_init : ℚ) (x_error_loc : Option ℚ) :
    Except SolverErr (List (ℚ × CQ) × ℚ × Option ℚ × ℚ) →
    Except SolverErr LoopState
  | .error e => .error e
  | .ok (pts, step1, x_error, x1) =>
      let u := update_after x_error x_error_loc x1 step1 step_init
      .ok (LoopState.mk pts u.2 (x1 - u.2) u.1)

/-- One full iteration of the leftward `while` loop of `line_trace_sp`. -/
def left_iter (solver solver_mp : CQ → Option CQ) (y_loc : CQ)
    (step_init : ℚ) (st : LoopState) : Except SolverErr LoopState :=
  finish_left step_init st.x_error_loc
    (left_attempt solver solver_mp y_loc step_init st)

/-- The `try/except` of one rightward-sweep iteration of `line_trace_sp`:
attempt `next_root` with step `+step_size`; the handler unconditionally
retreats `x_loc` by the step and halves the step size — this sweep has no
threshold test and never escalates to arbitrary precision, so the
iteration is total. -/
def right_attempt (solver : CQ → Option CQ) (y_loc : CQ) (st : LoopState) :
    List (ℚ × CQ) × ℚ × Option ℚ × ℚ :=
  match next_root solver st.x_loc y_loc st.step_size st.points with
  | .ok r => r
  | .error _ =>
      (st.points, st.step_size / 2, some (st.x_loc - st.step_size),
       st.x_loc - st.step_size)

/-- Tail of a rightward iteration: bookkeeping, then `x_loc += step_size`. -/
def finish_right (step_init : ℚ) (x_error_loc : Option ℚ)
    (r : List (ℚ × CQ) × ℚ × Option ℚ × ℚ) : LoopState :=
  let u := update_after r.2.2.1 x_error_loc r.2.2.2 r.2.1 step_init
  LoopState.mk r.1 u.2 (r.2.2.2 + u.2) u.1

/-- One full iteration of the rightward `while` loop of `line_trace_sp`. -/
def right_iter (solver : CQ → Option CQ) (y_loc : CQ) (step_init : ℚ)
    (st : LoopState) : LoopState :=
  finish_right step_init st.x_error_loc (right_attempt solver y_loc st)

/-- Numpy's ordering on complex scalars (used when `root > y_range[0]`
compares a complex root against a real bound): lexicographic on the real
part, then the imaginary part. -/
def cltLex (a b : CQ) : Prop := a.re < b.re ∨ (a.re = b.re ∧ a.im < b.im)

instance (a b : CQ) : Decidable (cltLex a b) :=
  inferInstanceAs (Decidable (_ ∨ _))

/-- The near-real snapping of `grid_solver`: `if np.imag(root) != 0 and
np.imag(root) < 1e-5: root = np.real(root)`.  The comparison is on the
signed imaginary part — there is no absolute value in the source. -/
def snap_root (root : CQ) : CQ :=
  if root.im ≠ 0 ∧ root.im < snapTol then CQ.mk root.re 0 else root

/-- The acceptance step of `grid_solver`'s inner loop, for a root the local
solver returned at column `x`: accept when the root lies strictly inside
`(y_range[0], y_range[-1])` and `np.isclose(root, points, atol=1e-6).any()`
is false (the floating `isclose` test is an opaque numeric routine, passed
as the oracle `closeTo`); an accepted root is appended after snapping. -/
def grid_accept (closeTo : CQ → List (ℚ × CQ) → Bool) (y_first y_last : ℚ)
    (pts : List (ℚ × CQ)) (x : ℚ) (root : CQ) : List (ℚ × CQ) :=
  if cltLex (CQ.mk y_first 0) root ∧ cltLex root (CQ.mk y_last 0) ∧
      closeTo root pts = false then
    pts ++ [(x, snap_root root)]
  else pts

/-- Lookup in a Python dict modelled as an insertion-ordered association
list; keyword names are drawn from an abstract decidable key space (ℕ). -/
def dlookup {V : Type} : List (ℕ × V) → ℕ → Option V
  | [], _ => none
  | p :: rest, k => if p.1 = k then some p.2 else dlookup rest k

/-- The keys of a dict, in insertion order. -/
def dkeys {V : Type} (d : List (ℕ × V)) : List ℕ := d.map Prod.fst

/-- Python dict assignment `d[k] = v`: overwrite in place when the key
exists (its position is kept), otherwise append. -/
def dict_update {V : Type} : List (ℕ × V) → ℕ → V → List (ℕ × V)
  | [], k, v => [(k, v)]
  | p :: rest, k, v =>
      if p.1 = k then (k, v) :: rest else p :: dict_update rest k v

/-- The keyword merge `{**d1, **d2}` performed by `functools.partial.__call__`:
entries of `d2` override same-keyed entries of `d1`, silently. -/
def dstar_merge {V : Type} (d1 d2 : List (ℕ × V)) : List (ℕ × V) :=
  d2.foldl (fun a p => dict_update a p.1 p.2) d1

/-- Building the call-site keywords of `f(**d1, **d2)`: Python raises a
`TypeError` (modelled by `Except.error`) exactly when the two dicts share
a key; otherwise the keywords are the concatenation. -/
def call_kwargs {V : Type} (d1 d2 : List (ℕ × V)) :
    Except Unit (List (ℕ × V)) :=
  if (dkeys d2).all (fun k => decide (k ∉ dkeys d1)) then .ok (d1 ++ d2)
  else .error ()

/-- The keyword flow of `find_sign_change`: `func_part = partial(func,
**args)` binds `args`, and `func_part(**grid_axes, **args)` first builds
the call-site keywords from `grid_axes` and `args`, then `partial` merges
them over the bound `args` with call-site precedence.  The result is the
keyword dict ultimately delivered to `func` (or the `TypeError`). -/
def find_sign_change_kwargs {V : Type} (args grid_axes : List (ℕ × V)) :
    Except Unit (List (ℕ × V)) :=
  match call_kwargs grid_axes args with
  | .error e => .error e
  | .ok callkw => .ok (dstar_merge args callkw)

/-- The `method` strings accepted by `grid_solver`; `other` stands for any
string different from `'sp.newton'`, `'sp.brentq'` and `'sp.brenth'`. -/
inductive SolverMethod where
  | spNewton : SolverMethod
  | spBrentq : SolverMethod
  | spBrenth : SolverMethod
  | other : SolverMethod
deriving DecidableEq

/-- The effect of `grid_solver` on the caller-supplied `args` dict: each
of the three method branches executes `args[axes['x_axis']] = x_loc` for
every `x_loc` of `x_range`; an unrecognised method runs no branch and
leaves `args` untouched. -/
def grid_solver_args (method : SolverMethod) (x_key : ℕ)
    (x_range : List ℚ) (args : List (ℕ × ℚ)) : List (ℕ × ℚ) :=
  match method with
  | .spNewton => x_range.foldl (fun a x => dict_update a x_key x) args
  | .spBrentq => x_range.foldl (fun a x => dict_update a x_key x) args
  | .spBrenth => x_range.foldl (fun a x => dict_update a x_key x) args
  | .other => args

/-- The acceptance test of `find_first_imag`: the refined root lies
strictly between `y_range[0]` and `y_range[-1]` (numpy's lexicographic
comparison) and `np.imag(root) > 1e-5`. -/
def root_cond (y_first y_last : ℚ) (root : CQ) : Prop :=
  cltLex (CQ.mk y_first 0) root ∧ cltLex root (CQ.mk y_last 0) ∧
    snapTol < root.im

instance (y_first y_last : ℚ) (root : CQ) :
    Decidable (root_cond y_first y_last root) :=
  inferInstanceAs (Decidable (_ ∧ _))

/-- Inner (`y_loc`) loop of `find_first_imag` for a fixed `x_loc`: try the
solver at each seed; a convergence failure is skipped; the first converged
root passing `root_cond` is returned. -/
def ffi_y (solve : ℚ → ℚ → Option CQ) (x y_first y_last : ℚ) :
    List ℚ → Option (ℚ × CQ)
  | [] => none
  | y :: ys =>
      match solve x y with
      | none => ffi_y solve x y_first y_last ys
      | some root =>
          if root_cond y_first y_last root then some (x, root)
          else ffi_y solve x y_first y_last ys

/-- Outer (`x_loc`) loop of `find_first_imag`. -/
def ffi_x (solve : ℚ → ℚ → Option CQ) (y_first y_last : ℚ)
    (y_range : List ℚ) : List ℚ → Option (ℚ × CQ)
  | [] => none
  | x :: xs =>
      match ffi_y solve x y_first y_last y_range with
      | some r => some r
      | none => ffi_x solve y_first y_last y_range xs

/-- Embedding of `find_first_imag(func, x_range, y_range, args)`: the
solver oracle stands for `sp.newton(func, y_loc, args=..., tol=1e-20)`
with the current `x_loc` substituted into the argument slots.  Falling off
both loops returns Python's implicit `None`.  (With an empty `y_range`
the inner loop never runs, so the bound defaults are never consulted.) -/
def find_first_imag (solve : ℚ → ℚ → Option CQ)
    (x_range y_range : List ℚ) : Option (ℚ × CQ) :=
  ffi_x solve (y_range.headD 0) (y_range.getLastD 0) y_range x_range

/-- The scan-order specification of `find_first_imag`: list every grid
candidate in outer-`x`, inner-`y` order, keep those whose solve converges
and passes `root_cond`, and take the first — `none` exactly when no
candidate qualifies. -/
def scanFirst (solve : ℚ → ℚ → Option CQ) (x_range y_range : List ℚ) :
    Option (ℚ × CQ) :=
  (x_range.flatMap (fun x =>
    y_range.filterMap (fun y =>
      match solve x y with
      | none => none
      | some root =>
          if root_cond (y_range.headD 0) (y_range.getLastD 0) root then
            some (x, root)
          else none))).head?

/-! Helper lemmas shared by the claim theorems. -/

theorem CQ.add_def (a b : CQ) : a + b = CQ.mk (a.re + b.re) (a.im + b.im) := rfl

theorem CQ.sub_def (a b : CQ) : a - b = CQ.mk (a.re - b.re) (a.im - b.im) := rfl

theorem qabs_ite (q : ℚ) : |q| = if q < 0 then -q else q := by
  rcases lt_or_le q 0 with h | h
  · rw [if_pos h, abs_of_neg h]
  · rw [if_neg (not_lt.mpr h), abs_of_nonneg h]

theorem CQ.add_sub_cancel_right (a b : CQ) : a + b - b = a := by
  cases a; cases b
  simp [CQ.add_def, CQ.sub_def]

/-! Claim C7: near-real snapping in `grid_solver`. -/

/-- C7 counterexample: the root `2 - 1i`, whose imaginary part has
magnitude `1 ≥ 1e-5`, is nevertheless accepted by `grid_solver` (bounds
`0 < re < 3`, empty point list, `isclose` false) and stored with zero
imaginary part, because the source compares the signed imaginary part
`np.imag(root) < 1e-5` without an absolute value. -/
theorem c7_snap_counterexample :
    grid_accept (fun _ _ => false) 0 3 [] 1 (CQ.mk 2 (-1)) =
      [(1, CQ.mk 2 0)] ∧ ¬ |(-1 : ℚ)| < snapTol := by
  constructor
  · norm_num [grid_accept, cltLex, snap_root, snapTol]
  · norm_num [snapTol]

/-- C7 (amended): in `grid_solver`, an accepted root is stored as
`snap_root root`, and the stored value has zero imaginary part exactly
when the signed imaginary part is zero or below `1e-5` — all negative
imaginary parts (of any magnitude) are snapped, positive ones only when
smaller than `1e-5`; the real part is always kept. -/
theorem c7_snap_signed (closeTo : CQ → List (ℚ × CQ) → Bool)
    (y_first y_last : ℚ) (pts : List (ℚ × CQ)) (x : ℚ) (root : CQ) :
    (grid_accept closeTo y_first y_last pts x root = pts ∨
      grid_accept closeTo y_first y_last pts x root =
        pts ++ [(x, snap_root root)]) ∧
    (snap_root root).re = root.re ∧
    ((snap_root root).im = 0 ↔ root.im = 0 ∨ root.im < snapTol) := by
  refine ⟨?_, ?_, ?_⟩
  · unfold grid_accept
    split
    · exact Or.inr rfl
    · exact Or.inl rfl
  · unfold snap_root
    split
    · rfl
    · rfl
  · unfold snap_root
    split
    · rename_i h
      simp only [true_iff]
      exact Or.inr h.2
    · rename_i h
      rw [not_and_or, not_not] at h
      rcases h with h | h
      · simp [h]
      · rw [not_lt] at h
        have h0 : root.im ≠ 0 := by
          intro hz
          rw [hz] at h
          exact absurd h (by norm_num [snapTol])
        simp only [iff_def]
        constructor
        · intro hz; exact absurd hz h0
        · rintro (hz | hlt)
          · exact absurd hz h0
          · exact absurd hlt (not_lt.mpr h)

/-! Claim C9: `grid_solver` mutates the caller's `args` dict. -/

theorem dlookup_update_self {V : Type} (d : List (ℕ × V)) (k : ℕ) (v : V) :
    dlookup (dict_update d k v) k = some v := by
  induction d with
  | nil => simp [dict_update, dlookup]
  | cons p rest ih =>
      by_cases h : p.1 = k
      · simp [dict_update, h, dlookup]
      · simp [dict_update, h, dlookup, ih]

theorem dlookup_fold_update_last (x_key : ℕ) (xs : List ℚ)
    (xl : ℚ) (hxl : xs.getLast? = some xl) :
    ∀ d : List (ℕ × ℚ),
      dlookup (xs.foldl (fun a x => dict_update a x_key x) d) x_key = some xl := by
  induction xs with
  | nil => cases hxl
  | cons x t ih =>
      intro d
      cases t with
      | nil =>
          simp only [List.getLast?_singleton, Option.some.injEq] at hxl
          subst hxl
          simpa [List.foldl] using dlookup_update_self (V := ℚ) d x_key x
      | cons y tt =>
          have ht : (y :: tt).getLast? = some xl := by
            rw [← hxl, List.getLast?_cons_cons]
          simpa [List.foldl] using ih ht (dict_update d x_key x)

/-- C9: for each supported solver method, `grid_solver` writes every
`x_loc` of the sweep into the caller's `args` under the x-axis key, so a
caller inspecting `args` after a nonempty sweep finds that key bound to
the last x value, whichever of the three supported methods was selected. -/
theorem c9_args_mutation (method : SolverMethod) (x_key : ℕ)
    (x_range : List ℚ) (args : List (ℕ × ℚ)) (xl : ℚ)
    (hm : method ≠ SolverMethod.other)
    (hxl : x_range.getLast? = some xl) :
    dlookup (grid_solver_args method x_key x_range args) x_key = some xl := by
  cases method with
  | spNewton => exact dlookup_fold_update_last x_key x_range xl hxl args
  | spBrentq => exact dlookup_fold_update_last x_key x_range xl hxl args
  | spBrenth => exact dlookup_fold_update_last x_key x_range xl hxl args
  | other => exact absurd rfl hm

/-- C9 witness: sweeping `x_range = [1, 2]` with the Newton method over an
initially empty `args` leaves key `0` bound to the final x value `2`. -/
theorem c9_args_mutation_witness :
    dlookup (grid_solver_args SolverMethod.spNewton 0 [1, 2] []) 0 = some 2 :=
  c9_args_mutation SolverMethod.spNewton 0 [1, 2] [] 2 (by simp) rfl

/-! Claim C5: step-size restore condition in `line_trace_sp`. -/

/-- C5 counterexample: a leftward step succeeds while a shrink marker at
`x_error_loc = 2` is in effect; the current `x = 1/2` has moved `3/2` past
the marker — at step size `1/10` that is more than `10 ×` the current
step, so the claim requires the step to be restored to `step_init = 2/5`.
The code instead compares `np.abs(x_loc) - np.abs(x_error_loc) =
1/2 - 2 < 1` and keeps the shrunken step `1/10`. -/
theorem c5_restore_counterexample :
    left_iter (fun g => some g) (fun g => some g) czero (2/5)
        (LoopState.mk
          [(9/20, CQ.mk 1 0), (7/20, CQ.mk 1 0), (1/4, CQ.mk 1 0)]
          (1/10) (1/2) (some 2)) =
      .ok (LoopState.mk
        [(1/2, CQ.mk 1 (1/10^20)), (9/20, CQ.mk 1 0), (7/20, CQ.mk 1 0),
          (1/4, CQ.mk 1 0)]
        (1/10) (2/5) (some 2)) ∧
    (1/2 : ℚ) ≤ 2 - 10 * (1/10) ∧
    10 * (1/10 : ℚ) ≤ |(1/2 : ℚ) - 2| ∧
    (1/10 : ℚ) ≠ 2/5 := by
  refine ⟨?_, by norm_num, by norm_num [qabs_ite], by norm_num⟩
  norm_num [left_iter, left_attempt, finish_left, next_root, update_after,
    CQ.absLt, CQ.scale, perturb, jump_limit, CQ.add_def, CQ.sub_def, qabs_ite]

/-- C5 (amended): after an error-free step (`x_error = None`) with a
shrink marker `x_error_loc = l` in effect, `line_trace_sp` restores the
step size to `step_init` exactly when `|x_loc| − |l| ≥ 10 · step_size` —
a comparison of absolute positions, not of the distance moved since the
shrink; in every other case (condition false, or an error this step, or
no marker) the current step size is kept. -/
theorem c5_restore_rule (l x step si : ℚ) :
    (|x| - |l| ≥ 10 * step →
      update_after none (some l) x step si = (some l, si)) ∧
    (|x| - |l| < 10 * step →
      update_after none (some l) x step si = (some l, step)) ∧
    (∀ e : ℚ, update_after (some e) (some l) x step si = (some l, step)) ∧
    (∀ e : ℚ, update_after (some e) none x step si = (some e, step)) ∧
    update_after none none x step si = (none, step) := by
  refine ⟨?_, ?_, fun e => rfl, fun e => rfl, rfl⟩
  · intro h
    simp [update_after, h]
  · intro h
    simp [update_after, not_le.mpr h]

/-- C5 witness: at `x = 3`, marker `2`, step `1/100`, the restore
condition `|3| − |2| ≥ 10/100` holds and the rule yields `step_init`. -/
theorem c5_restore_rule_witness :
    update_after none (some 2) 3 (1/100) (2/5) = (some 2, 2/5) :=
  (c5_restore_rule 2 3 (1/100) (2/5)).1 (by norm_num [qabs_ite])

/-! Claims C2, C3, C4: recovery policy of `line_trace_sp`. -/

/-- C2 counterexample: in the rightward sweep, a solver failure at step
size `1/160` — already below the escalation threshold `(2/5)/2⁵ = 1/80` —
is still handled by halving and retreating (the handler of the right
`while` loop has no threshold test and never calls the
arbitrary-precision adapter), contradicting the claim that the
halve-or-escalate policy applies to both sweeps. -/
theorem c2_right_sweep_counterexample :
    right_iter (fun _ => none) czero (2/5)
        (LoopState.mk [(1, CQ.mk 1 0), (2, CQ.mk 1 0), (3, CQ.mk 1 0)]
          (1/160) 1 none) =
      LoopState.mk [(1, CQ.mk 1 0), (2, CQ.mk 1 0), (3, CQ.mk 1 0)]
        (1/320) (319/320) (some (159/160)) ∧
    (1/160 : ℚ) < (2/5) / 2 ^ 5 := by
  constructor
  · norm_num [right_iter, right_attempt, finish_right, next_root,
      update_after, CQ.absLt, CQ.scale, perturb, jump_limit, CQ.add_def,
      CQ.sub_def, qabs_ite]
  · norm_num

/-- C2 (amended): the halve-or-escalate policy governs only the leftward
sweep: there, a failed step halves and retreats while the step size is
still at least `2⁻⁵` of the initial one and otherwise hands the step to
the arbitrary-precision adapter; the rightward sweep's handler always
halves and retreats, at every step size, and never escalates. -/
theorem c2_recovery_policy (solver solver_mp : CQ → Option CQ)
    (y_loc : CQ) (step_init : ℚ) (st : LoopState) :
    (∀ e, next_root solver st.x_loc y_loc (-st.step_size) st.points =
        .error e →
      (step_init / 2 ^ 5 ≤ st.step_size →
        left_iter solver solver_mp y_loc step_init st =
          finish_left step_init st.x_error_loc
            (.ok (st.points, st.step_size / 2,
              some (st.x_loc - st.step_size), st.x_loc - st.step_size))) ∧
      (st.step_size < step_init / 2 ^ 5 →
        left_iter solver solver_mp y_loc step_init st =
          finish_left step_init st.x_error_loc
            (next_root_mp solver_mp st.x_loc y_loc st.step_size st.points))) ∧
    (∀ e, next_root solver st.x_loc y_loc st.step_size st.points =
        .error e →
      right_iter solver y_loc step_init st =
        finish_right step_init st.x_error_loc
          (st.points, st.step_size / 2,
            some (st.x_loc - st.step_size), st.x_loc - st.step_size)) := by
  constructor
  · intro e he
    constructor
    · intro hge
      unfold left_iter left_attempt
      rw [he]
      rw [if_pos hge]
    · intro hlt
      unfold left_iter left_attempt
      rw [he]
      rw [if_neg (not_le.mpr hlt)]
  · intro e he
    unfold right_iter right_attempt
    rw [he]

/-- C2 witness: with an always-failing solver at the initial step size,
the leftward handler takes the halve-and-retreat branch. -/
theorem c2_recovery_policy_witness :
    left_iter (fun _ => none) (fun _ => none) czero (2/5)
        (LoopState.mk [(1, CQ.mk 1 0), (2, CQ.mk 1 0), (3, CQ.mk 1 0)]
          (2/5) 0 none) =
      finish_left (2/5) none
        (.ok ([(1, CQ.mk 1 0), (2, CQ.mk 1 0), (3, CQ.mk 1 0)],
          (2/5) / 2, some (0 - 2/5), 0 - 2/5)) :=
  ((c2_recovery_policy (fun _ => none) (fun _ => none) czero (2/5)
      (LoopState.mk [(1, CQ.mk 1 0), (2, CQ.mk 1 0), (3, CQ.mk 1 0)]
        (2/5) 0 none)).1 SolverErr.conv rfl).1 (by norm_num)

/-- C3 counterexample: with initial step `0.4 = 2/5` and an always-failing
fixed-precision solver, the first three consecutive failures halve the
step to `1/20 = 0.05`; on the fourth consecutive failure the step
`1/20` is still at or above the threshold `(2/5)/2⁵ = 1/80 = 0.0125`, so
the engine halves again to `1/40` (the iteration returns `ok`; had it
escalated, the always-failing arbitrary-precision oracle would have
produced an error) — it does not escalate on the fourth failure. -/
theorem c3_fourth_failure_counterexample :
    left_iter (fun _ => none) (fun _ => none) czero (2/5)
        (LoopState.mk [(1, CQ.mk 1 0), (2, CQ.mk 1 0), (3, CQ.mk 1 0)]
          (2/5) 0 none) =
      .ok (LoopState.mk [(1, CQ.mk 1 0), (2, CQ.mk 1 0), (3, CQ.mk 1 0)]
        (1/5) (-3/5) (some (-2/5))) ∧
    left_iter (fun _ => none) (fun _ => none) czero (2/5)
        (LoopState.mk [(1, CQ.mk 1 0), (2, CQ.mk 1 0), (3, CQ.mk 1 0)]
          (1/5) (-3/5) (some (-2/5))) =
      .ok (LoopState.mk [(1, CQ.mk 1 0), (2, CQ.mk 1 0), (3, CQ.mk 1 0)]
        (1/10) (-9/10) (some (-2/5))) ∧
    left_iter (fun _ => none) (fun _ => none) czero (2/5)
        (LoopState.mk [(1, CQ.mk 1 0), (2, CQ.mk 1 0), (3, CQ.mk 1 0)]
          (1/10) (-9/10) (some (-2/5))) =
      .ok (LoopState.mk [(1, CQ.mk 1 0), (2, CQ.mk 1 0), (3, CQ.mk 1 0)]
        (1/20) (-21/20) (some (-2/5))) ∧
    left_iter (fun _ => none) (fun _ => none) czero (2/5)
        (LoopState.mk [(1, CQ.mk 1 0), (2, CQ.mk 1 0), (3, CQ.mk 1 0)]
          (1/20) (-21/20) (some (-2/5))) =
      .ok (LoopState.mk [(1, CQ.mk 1 0), (2, CQ.mk 1 0), (3, CQ.mk 1 0)]
        (1/40) (-9/8) (some (-2/5))) ∧
    (2/5 : ℚ) / 2 ^ 5 ≤ 1/20 := by
  refine ⟨?_, ?_, ?_, ?_, by norm_num⟩ <;>
    norm_num [left_iter, left_attempt, finish_left, next_root, update_after,
      CQ.absLt, CQ.scale, perturb, jump_limit, CQ.add_def, CQ.sub_def,
      qabs_ite]

/-- C3 (amended): with initial step `0.4`, consecutive solver failures in
the leftward sweep halve the step size six times — `0.4, 0.2, 0.1, 0.05,
0.025, 0.0125` are all at or above the threshold `0.4 × 2⁻⁵ = 0.0125` —
and only the seventh consecutive failure, at step `0.00625 < 0.0125`,
escalates to the arbitrary-precision adapter (which here converges and
appends the escalated point to the trace). -/
theorem c3_seven_failures_escalation :
    left_iter (fun _ => none) (fun g => some g) czero (2/5)
        (LoopState.mk [(1, CQ.mk 1 0), (2, CQ.mk 1 0), (3, CQ.mk 1 0)]
          (2/5) 0 none) =
      .ok (LoopState.mk [(1, CQ.mk 1 0), (2, CQ.mk 1 0), (3, CQ.mk 1 0)]
        (1/5) (-3/5) (some (-2/5))) ∧
    left_iter (fun _ => none) (fun g => some g) czero (2/5)
        (LoopState.mk [(1, CQ.mk 1 0), (2, CQ.mk 1 0), (3, CQ.mk 1 0)]
          (1/5) (-3/5) (some (-2/5))) =
      .ok (LoopState.mk [(1, CQ.mk 1 0), (2, CQ.mk 1 0), (3, CQ.mk 1 0)]
        (1/10) (-9/10) (some (-2/5))) ∧
    left_iter (fun _ => none) (fun g => some g) czero (2/5)
        (LoopState.mk [(1, CQ.mk 1 0), (2, CQ.mk 1 0), (3, CQ.mk 1 0)]
          (1/10) (-9/10) (some (-2/5))) =
      .ok (LoopState.mk [(1, CQ.mk 1 0), (2, CQ.mk 1 0), (3, CQ.mk 1 0)]
        (1/20) (-21/20) (some (-2/5))) ∧
    left_iter (fun _ => none) (fun g => some g) czero (2/5)
        (LoopState.mk [(1, CQ.mk 1 0), (2, CQ.mk 1 0), (3, CQ.mk 1 0)]
          (1/20) (-21/20) (some (-2/5))) =
      .ok (LoopState.mk [(1, CQ.mk 1 0), (2, CQ.mk 1 0), (3, CQ.mk 1 0)]
        (1/40) (-9/8) (some (-2/5))) ∧
    left_iter (fun _ => none) (fun g => some g) czero (2/5)
        (LoopState.mk [(1, CQ.mk 1 0), (2, CQ.mk 1 0), (3, CQ.mk 1 0)]
          (1/40) (-9/8) (some (-2/5))) =
      .ok (LoopState.mk [(1, CQ.mk 1 0), (2, CQ.mk 1 0), (3, CQ.mk 1 0)]
        (1/80) (-93/80) (some (-2/5))) ∧
    left_iter (fun _ => none) (fun g => some g) czero (2/5)
        (LoopState.mk [(1, CQ.mk 1 0), (2, CQ.mk 1 0), (3, CQ.mk 1 0)]
          (1/80) (-93/80) (some (-2/5))) =
      .ok (LoopState.mk [(1, CQ.mk 1 0), (2, CQ.mk 1 0), (3, CQ.mk 1 0)]
        (1/160) (-189/160) (some (-2/5))) ∧
    left_iter (fun _ => none) (fun g => some g) czero (2/5)
        (LoopState.mk [(1, CQ.mk 1 0), (2, CQ.mk 1 0), (3, CQ.mk 1 0)]
          (1/160) (-189/160) (some (-2/5))) =
      .ok (LoopState.mk
        [(-189/160, CQ.mk 1 0), (1, CQ.mk 1 0), (2, CQ.mk 1 0),
          (3, CQ.mk 1 0)]
        (2/5) (-253/160) (some (-2/5))) ∧
    (1/160 : ℚ) < (2/5) / 2 ^ 5 := by
  refine ⟨?_, ?_, ?_, ?_, ?_, ?_, ?_, by norm_num⟩ <;>
    norm_num [left_iter, left_attempt, finish_left, next_root, next_root_mp,
      update_after, CQ.absLt, CQ.scale, perturb, jump_limit, CQ.add_def,
      CQ.sub_def, qabs_ite]

/-- C4 counterexample: a convergence failure on the escalation path is
fatal.  With the step size `1/160` already below the threshold
`(2/5)/2⁵`, a fixed-precision failure escalates to `next_root_mp`; when
the arbitrary-precision solver also fails to converge, the resulting
error is raised inside the `except`-handler of the leftward sweep, where
nothing catches it, and the iteration — hence `line_trace_sp` itself —
terminates with the error instead of recovering. -/
theorem c4_escalation_failure_counterexample :
    left_iter (fun _ => none) (fun _ => none) czero (2/5)
        (LoopState.mk [(1, CQ.mk 1 0), (2, CQ.mk 1 0), (3, CQ.mk 1 0)]
          (1/160) 0 none) =
      .error SolverErr.conv ∧
    (1/160 : ℚ) < (2/5) / 2 ^ 5 := by
  constructor
  · norm_num [left_iter, left_attempt, finish_left, next_root, next_root_mp,
      CQ.absLt, CQ.scale, perturb, jump_limit, CQ.add_def, CQ.sub_def,
      qabs_ite]
  · norm_num

/-- C4 (amended): a fixed-precision convergence failure is always
recovered inside `line_trace_sp` while the step size is at or above the
escalation threshold (the leftward iteration then returns normally; the
rightward iteration is total and never raises at all); but when the step
has fallen below the threshold, any error of the arbitrary-precision
escalation call itself — convergence or jump — propagates uncaught to
the caller of `line_trace_sp`. -/
theorem c4_fixed_failures_recovered (solver solver_mp : CQ → Option CQ)
    (y_loc : CQ) (step_init : ℚ) (st : LoopState) :
    (step_init / 2 ^ 5 ≤ st.step_size →
      ∃ st2, left_iter solver solver_mp y_loc step_init st = .ok st2) ∧
    (∀ e, left_iter solver solver_mp y_loc step_init st = .error e →
      st.step_size < step_init / 2 ^ 5 ∧
      next_root_mp solver_mp st.x_loc y_loc st.step_size st.points =
        .error e) := by
  constructor
  · intro hge
    unfold left_iter left_attempt
    cases hnr : next_root solver st.x_loc y_loc (-st.step_size) st.points with
    | ok r =>
        obtain ⟨pts, s, xe, xl⟩ := r
        exact ⟨_, rfl⟩
    | error e =>
        rw [if_pos hge]
        exact ⟨_, rfl⟩
  · intro e he
    unfold left_iter left_attempt at he
    cases hnr : next_root solver st.x_loc y_loc (-st.step_size) st.points with
    | ok r =>
        rw [hnr] at he
        obtain ⟨pts, s, xe, xl⟩ := r
        simp [finish_left] at he
    | error e2 =>
        rw [hnr] at he
        by_cases hge : step_init / 2 ^ 5 ≤ st.step_size
        · rw [if_pos hge] at he
          simp [finish_left] at he
        · rw [if_neg hge] at he
          refine ⟨not_le.mp hge, ?_⟩
          cases hmp : next_root_mp solver_mp st.x_loc y_loc st.step_size
              st.points with
          | ok r =>
              rw [hmp] at he
              obtain ⟨pts, s, xe, xl⟩ := r
              simp [finish_left] at he
          | error e3 =>
              rw [hmp] at he
              simp only [finish_left] at he
              injection he with h3
              rw [h3]

/-- C4 witness: at the initial step size the threshold holds, and a
failing fixed-precision step is recovered with an `ok` state. -/
theorem c4_fixed_failures_recovered_witness :
    ∃ st2, left_iter (fun _ => none) (fun _ => none) czero (2/5)
      (LoopState.mk [(1, CQ.mk 1 0), (2, CQ.mk 1 0), (3, CQ.mk 1 0)]
        (2/5) 0 none) = .ok st2 :=
  (c4_fixed_failures_recovered (fun _ => none) (fun _ => none) czero (2/5)
    (LoopState.mk [(1, CQ.mk 1 0), (2, CQ.mk 1 0), (3, CQ.mk 1 0)]
      (2/5) 0 none)).1 (by norm_num)

/-! Claim C1: jump validation of accepted continuation steps. -/

/-- C1 counterexample: on the arbitrary-precision path, a corrected root
with `|root − last_y| = 0 < 0.1` but `|x_new − last_x| = 4 ≥ 0.1` is
accepted and appended — `next_root_mp` never checks the x displacement,
so the claimed two-sided validation does not hold there. -/
theorem c1_mp_no_x_check_counterexample :
    next_root_mp (fun g => some g) 5 czero (1/10)
        [(1, CQ.mk 1 1), (9/10, CQ.mk 1 1), (4/5, CQ.mk 1 1)] =
      .ok ([(5, CQ.mk 1 1), (1, CQ.mk 1 1), (9/10, CQ.mk 1 1),
          (4/5, CQ.mk 1 1)], 1/10, none, 5) ∧
    ¬ |(5 : ℚ) - 1| < jump_limit := by
  constructor
  · norm_num [next_root_mp, CQ.absLt, CQ.scale, jump_limit, CQ.add_def,
      CQ.sub_def, qabs_ite]
  · norm_num [jump_limit, qabs_ite]

/-- C1 (amended): in the trace-length regimes that perform prediction
(at least three points; or exactly two points none of whose entries is
zero), an accepted step of the fixed-precision `next_root` appends a
point satisfying both `|root − last_y| < 0.1` and `|x_new − last_x| <
0.1`; an accepted step of the arbitrary-precision `next_root_mp` in the
same regimes satisfies only the root bound `|root − last_y| < 0.1` — its
x displacement is unconstrained. -/
theorem c1_jump_validation (solver : CQ → Option CQ) (x_loc : ℚ)
    (y_loc : CQ) (step_size x1 x2 : ℚ) (y1 y2 : CQ)
    (rest : List (ℚ × CQ))
    (res : List (ℚ × CQ) × ℚ × Option ℚ × ℚ)
    (hreg : rest ≠ [] ∨
      hasZeroEntry ((x1, y1) :: (x2, y2) :: rest) = false) :
    (next_root solver x_loc y_loc step_size
        ((x1, y1) :: (x2, y2) :: rest) = .ok res →
      ∃ root, res.1 = (x_loc, root) :: (x1, y1) :: (x2, y2) :: rest ∧
        (root - y1).absLt jump_limit ∧ |x_loc - x1| < jump_limit) ∧
    (next_root_mp solver x_loc y_loc step_size
        ((x1, y1) :: (x2, y2) :: rest) = .ok res →
      ∃ root, res.1 = (x_loc, root) :: (x1, y1) :: (x2, y2) :: rest ∧
        (root - y1).absLt jump_limit) := by
  constructor
  · intro h
    cases rest with
    | cons p3 tl =>
        obtain ⟨x3, y3⟩ := p3
        simp only [next_root] at h
        cases hs : solver (y1 +
            CQ.scale |step_size / (x1 - x2)|
              ((y1 - y2) + (y1 - CQ.scale 2 y2 + y3)) +
            CQ.mk 0 perturb) with
        | none => rw [hs] at h; simp at h
        | some root =>
            rw [hs] at h
            simp only [] at h
            by_cases hc : (root - y1).absLt jump_limit ∧
                |x_loc - x1| < jump_limit
            · rw [if_pos hc] at h
              injection h with h2
              exact ⟨root, by rw [← h2], hc.1, hc.2⟩
            · rw [if_neg hc] at h
              simp at h
    | nil =>
        have hz : hasZeroEntry [(x1, y1), (x2, y2)] = false := by
          rcases hreg with h1 | h1
          · exact absurd rfl h1
          · exact h1
        simp only [next_root] at h
        rw [if_neg (by simp [hz])] at h
        cases hs : solver (y1 +
            CQ.scale |step_size / (x1 - x2)| (y1 - y2) +
            CQ.mk 0 perturb) with
        | none => rw [hs] at h; simp at h
        | some root =>
            rw [hs] at h
            simp only [] at h
            by_cases hc : (root - y1).absLt jump_limit ∧
                |x_loc - x1| < jump_limit
            · rw [if_pos hc] at h
              injection h with h2
              exact ⟨root, by rw [← h2], hc.1, hc.2⟩
            · rw [if_neg hc] at h
              simp at h
  · intro h
    cases rest with
    | cons p3 tl =>
        obtain ⟨x3, y3⟩ := p3
        simp only [next_root_mp] at h
        cases hs : solver (y1 +
            CQ.scale |step_size / (x1 - x2)|
              ((y1 - y2) + (y1 - CQ.scale 2 y2 + y3))) with
        | none => rw [hs] at h; simp at h
        | some root =>
            rw [hs] at h
            simp only [] at h
            by_cases hc : (root - y1).absLt jump_limit
            · rw [if_pos hc] at h
              injection h with h2
              exact ⟨root, by rw [← h2], hc⟩
            · rw [if_neg hc] at h
              simp at h
    | nil =>
        have hz : hasZeroEntry [(x1, y1), (x2, y2)] = false := by
          rcases hreg with h1 | h1
          · exact absurd rfl h1
          · exact h1
        simp only [next_root_mp] at h
        rw [if_neg (by simp [hz])] at h
        cases hs : solver (y1 +
            CQ.scale |step_size / (x1 - x2)| (y1 - y2)) with
        | none => rw [hs] at h; simp at h
        | some root =>
            rw [hs] at h
            simp only [] at h
            by_cases hc : (root - y1).absLt jump_limit
            · rw [if_pos hc] at h
              injection h with h2
              exact ⟨root, by rw [← h2], hc⟩
            · rw [if_neg hc] at h
              simp at h

/-- C1 witness: a concrete accepted fixed-precision step whose appended
point satisfies both validation bounds. -/
theorem c1_jump_validation_witness :
    ∃ root, (([(1/2, CQ.mk 1 (1/10^20)), (9/20, CQ.mk 1 0),
        (7/20, CQ.mk 1 0), (1/4, CQ.mk 1 0)], (1/10 : ℚ),
        (none : Option ℚ), (1/2 : ℚ)) :
        List (ℚ × CQ) × ℚ × Option ℚ × ℚ).1 =
      (1/2, root) :: (9/20, CQ.mk 1 0) :: (7/20, CQ.mk 1 0) ::
        [(1/4, CQ.mk 1 0)] ∧
      (root - CQ.mk 1 0).absLt jump_limit ∧
      |(1/2 : ℚ) - 9/20| < jump_limit :=
  (c1_jump_validation (fun g => some g) (1/2) czero (1/10) (9/20) (7/20)
    (CQ.mk 1 0) (CQ.mk 1 0) [(1/4, CQ.mk 1 0)]
    ([(1/2, CQ.mk 1 (1/10^20)), (9/20, CQ.mk 1 0), (7/20, CQ.mk 1 0),
      (1/4, CQ.mk 1 0)], 1/10, none, 1/2)
    (Or.inl (by simp))).1
    (by norm_num [next_root, CQ.absLt, CQ.scale, perturb, jump_limit,
      CQ.add_def, CQ.sub_def, qabs_ite])

/-! Claim C6: the predictor/corrector formulas of `next_root`. -/

/-- C6 counterexample: a two-point trace containing a zero entry (here
the earlier point has `x = 0`).  The claim requires the first-order
prediction `y₁ + (y₁−y₂)·|step/(x₁−x₂)| + 1e-20i = 2 + 1e-20i` to seed
the corrector and the step to be appended; instead `next_root` lands in
the `points.all() == 0` re-seed branch — the corrector is started from
`y_loc = 5` with no perturbation and the result overwrites row 0 of the
trace rather than appending. -/
theorem c6_two_point_zero_entry_counterexample :
    next_root (fun g => some g) (3/20) (CQ.mk 5 0) (1/10)
        [(1/10, CQ.mk 2 0), (0, CQ.mk 2 0)] =
      .ok ([(1/10, CQ.mk 2 0), (3/20, CQ.mk 5 0)], 1/10, none, 3/20) ∧
    specPredictGuess (1/10) [(1/10, CQ.mk 2 0), (0, CQ.mk 2 0)] =
      some (CQ.mk 2 (1/10^20)) ∧
    next_root (fun g => some g) (3/20) (CQ.mk 5 0) (1/10)
        [(1/10, CQ.mk 2 0), (0, CQ.mk 2 0)] ≠
      .ok ([(3/20, CQ.mk 2 (1/10^20)), (1/10, CQ.mk 2 0), (0, CQ.mk 2 0)],
        1/10, none, 3/20) := by
  refine ⟨?_, ?_, ?_⟩
  · norm_num [next_root, hasZeroEntry, czero]
  · norm_num [specPredictGuess, CQ.scale, perturb, CQ.add_def, CQ.sub_def,
      qabs_ite]
  · norm_num [next_root, hasZeroEntry, czero]

/-- C6 (amended): in the prediction regimes — at least three trace
points, or exactly two points none of whose entries is zero —
`next_root` behaves exactly as the claimed predictor-corrector: the
corrector is started from `specPredictGuess` (second-order extrapolation
with three points, first-order slope with two, plus the `1e-20i`
perturbation), and the corrected root is appended when both jump bounds
hold, rejected with a jump error otherwise.  A two-point trace with a
zero entry is instead re-seeded from `y_loc` (see the counterexample). -/
theorem c6_predictor_formula (solver : CQ → Option CQ) (x_loc : ℚ)
    (y_loc : CQ) (step_size x1 : ℚ) (y1 : CQ) (tail : List (ℚ × CQ))
    (g : CQ)
    (hreg : 3 ≤ ((x1, y1) :: tail).length ∨
      (tail.length = 1 ∧ hasZeroEntry ((x1, y1) :: tail) = false))
    (hg : specPredictGuess step_size ((x1, y1) :: tail) = some g) :
    next_root solver x_loc y_loc step_size ((x1, y1) :: tail) =
      match solver g with
      | none => .error .conv
      | some root =>
          if (root - y1).absLt jump_limit ∧ |x_loc - x1| < jump_limit then
            .ok ((x_loc, root) :: (x1, y1) :: tail, |step_size|, none,
              x_loc)
          else
            .error (.jump (root - y1) x1 (g - CQ.mk 0 perturb)) := by
  rcases tail with _ | ⟨⟨x2, y2⟩, tail2⟩
  · exact absurd hg (by simp [specPredictGuess])
  · rcases tail2 with _ | ⟨⟨x3, y3⟩, tail3⟩
    · have hz : hasZeroEntry [(x1, y1), (x2, y2)] = false := by
        rcases hreg with h1 | h1
        · simp at h1
        · exact h1.2
      simp only [specPredictGuess] at hg
      injection hg with h2
      subst h2
      rw [CQ.add_sub_cancel_right]
      simp only [next_root]
      rw [if_neg (by simp [hz])]
    · simp only [specPredictGuess] at hg
      injection hg with h2
      subst h2
      rw [CQ.add_sub_cancel_right]
      simp only [next_root]

/-- C6 witness: a three-point trace where the specification's predictor
guess is `1 + 1e-20i` and the corrector pipeline of the amended claim
reproduces `next_root` exactly. -/
theorem c6_predictor_formula_witness :
    next_root (fun g => some g) (1/2) czero (1/10)
        [(9/20, CQ.mk 1 0), (7/20, CQ.mk 1 0), (1/4, CQ.mk 1 0)] =
      match (fun g => some g : CQ → Option CQ) (CQ.mk 1 (1/10^20)) with
      | none => .error .conv
      | some root =>
          if (root - CQ.mk 1 0).absLt jump_limit ∧
              |(1/2 : ℚ) - 9/20| < jump_limit then
            .ok (((1/2 : ℚ), root) :: (9/20, CQ.mk 1 0) ::
              [(7/20, CQ.mk 1 0), (1/4, CQ.mk 1 0)], |(1/10 : ℚ)|,
              none, 1/2)
          else
            .error (.jump (root - CQ.mk 1 0) (9/20)
              (CQ.mk 1 (1/10^20) - CQ.mk 0 perturb)) :=
  c6_predictor_formula (fun g => some g) (1/2) czero (1/10) (9/20)
    (CQ.mk 1 0) [(7/20, CQ.mk 1 0), (1/4, CQ.mk 1 0)]
    (CQ.mk 1 (1/10^20)) (Or.inl (by simp))
    (by norm_num [specPredictGuess, CQ.scale, perturb, CQ.add_def,
      CQ.sub_def, qabs_ite])

/-! Claim C8: keyword flow of `find_sign_change`. -/

/-- C8 counterexample: a nonempty `args` (one extra keyword, key `7`)
whose key is distinct from the two grid-axes keys `1, 2`.  The call
model returns `ok` — `functools.partial` silently merges the call-site
keywords over its bound ones rather than raising a `TypeError` — and the
function proceeds with each keyword bound exactly once. -/
theorem c8_no_type_error_counterexample :
    find_sign_change_kwargs [(7, (1 : ℤ))] [(1, 2), (2, 3)] =
      .ok [(7, 1), (1, 2), (2, 3)] ∧
    ([(7, (1 : ℤ))] : List (ℕ × ℤ)) ≠ [] := by
  constructor
  · rfl
  · simp

theorem dict_update_not_mem {V : Type} (d : List (ℕ × V)) (k : ℕ) (v : V)
    (hk : k ∉ dkeys d) : dict_update d k v = d ++ [(k, v)] := by
  induction d with
  | nil => rfl
  | cons p rest ih =>
      simp only [dkeys, List.map_cons, List.mem_cons, not_or] at hk
      rw [dict_update, if_neg (fun hpk => hk.1 hpk.symm)]
      rw [ih (by simpa [dkeys] using hk.2)]
      simp

theorem dict_update_mem_self {V : Type} (d : List (ℕ × V)) (k : ℕ) (v : V)
    (hmem : (k, v) ∈ d) (hnd : (dkeys d).Nodup) : dict_update d k v = d := by
  induction d with
  | nil => cases hmem
  | cons p rest ih =>
      simp only [dkeys, List.map_cons, List.nodup_cons] at hnd
      rcases List.mem_cons.mp hmem with h | h
      · rw [dict_update, if_pos (by rw [← h])]
        rw [← h]
      · have hpk : p.1 ≠ k := by
          intro he
          apply hnd.1
          rw [he]
          exact List.mem_map_of_mem Prod.fst h
        rw [dict_update, if_neg hpk]
        rw [ih h hnd.2]

theorem foldl_update_append {V : Type} (l : List (ℕ × V)) :
    ∀ d : List (ℕ × V), (∀ p ∈ l, p.1 ∉ dkeys d) → (dkeys l).Nodup →
      l.foldl (fun a p => dict_update a p.1 p.2) d = d ++ l := by
  induction l with
  | nil => intro d _ _; simp
  | cons p t ih =>
      intro d hdisj hnd
      simp only [dkeys, List.map_cons, List.nodup_cons] at hnd
      have hp : p.1 ∉ dkeys d := hdisj p (List.mem_cons_self p t)
      rw [List.foldl_cons, dict_update_not_mem d p.1 p.2 hp]
      have hdisj2 : ∀ q ∈ t, q.1 ∉ dkeys (d ++ [(p.1, p.2)]) := by
        intro q hq
        simp only [dkeys, List.map_append, List.mem_append, List.map_cons,
          List.map_nil, List.mem_singleton, not_or]
        refine ⟨hdisj q (List.mem_cons_of_mem p hq), ?_⟩
        intro he
        apply hnd.1
        rw [← he]
        exact List.mem_map_of_mem Prod.fst hq
      calc t.foldl (fun a q => dict_update a q.1 q.2) (d ++ [(p.1, p.2)]) =
            (d ++ [(p.1, p.2)]) ++ t := ih (d ++ [(p.1, p.2)]) hdisj2 hnd.2
        _ = d ++ p :: t := by simp

theorem foldl_update_id {V : Type} (l : List (ℕ × V)) :
    ∀ d : List (ℕ × V), (∀ p ∈ l, p ∈ d) → (dkeys d).Nodup →
      l.foldl (fun a p => dict_update a p.1 p.2) d = d := by
  induction l with
  | nil => intro d _ _; rfl
  | cons p t ih =>
      intro d hmem hnd
      rw [List.foldl_cons]
      rw [dict_update_mem_self d p.1 p.2 (by
        simpa using hmem p (List.mem_cons_self p t)) hnd]
      exact ih d (fun q hq => hmem q (List.mem_cons_of_mem p hq)) hnd

/-- C8 (amended): when the keys of `args` are disjoint from the two
grid-axes keys (the normal configuration), `find_sign_change` raises no
`TypeError`: `functools.partial.__call__` merges the call-site keywords
over the bound ones with call-site precedence, so duplicating `args` is
harmless and `func` receives every keyword exactly once.  A `TypeError`
can only come from `args` sharing a key with the constructed grid-axes
dict in the single call expression. -/
theorem c8_partial_merge (args gx : List (ℕ × ℤ))
    (hdisj : ∀ k, k ∈ dkeys args → k ∉ dkeys gx)
    (hna : (dkeys args).Nodup) (hng : (dkeys gx).Nodup) :
    find_sign_change_kwargs args gx = .ok (args ++ gx) ∧
    (dkeys (args ++ gx)).Nodup := by
  have hnodup : (dkeys (args ++ gx)).Nodup := by
    simp only [dkeys, List.map_append]
    exact List.Nodup.append (by simpa [dkeys] using hna)
      (by simpa [dkeys] using hng)
      (by
        intro k hk1 hk2
        exact hdisj k (by simpa [dkeys] using hk1)
          (by simpa [dkeys] using hk2))
  refine ⟨?_, hnodup⟩
  have hok : call_kwargs gx args = .ok (gx ++ args) := by
    unfold call_kwargs
    rw [if_pos]
    rw [List.all_eq_true]
    intro k hk
    simpa using hdisj k hk
  unfold find_sign_change_kwargs
  rw [hok]
  have h1 : dstar_merge args (gx ++ args) = args ++ gx := by
    unfold dstar_merge
    rw [List.foldl_append]
    rw [foldl_update_append gx args
      (fun q hq hmem => hdisj q.1 hmem
        (by simpa [dkeys] using List.mem_map_of_mem Prod.fst hq)) hng]
    exact foldl_update_id args (args ++ gx)
      (fun q hq => List.mem_append_left gx hq) hnodup
  simp only []
  rw [h1]

/-- C8 witness: a concrete disjoint configuration runs through the
merge without error, each key bound once. -/
theorem c8_partial_merge_witness :
    find_sign_change_kwargs [(7, (5 : ℤ))] [(1, 2), (2, 3)] =
      .ok ([(7, (5 : ℤ))] ++ [(1, 2), (2, 3)]) ∧
    (dkeys ([(7, (5 : ℤ))] ++ [(1, 2), (2, 3)])).Nodup :=
  c8_partial_merge [(7, 5)] [(1, 2), (2, 3)]
    (by intro k hk; simp [dkeys] at hk ⊢; rw [hk]; exact ⟨by norm_num, by norm_num⟩)
    (by simp [dkeys]) (by simp [dkeys])

/-! Claim C10: result of `find_first_imag`. -/

theorem ffi_y_eq_filterMap (solve : ℚ → ℚ → Option CQ) (x yf yl : ℚ)
    (ys : List ℚ) :
    ffi_y solve x yf yl ys =
      (ys.filterMap (fun y =>
        match solve x y with
        | none => none
        | some root =>
            if root_cond yf yl root then some (x, root) else none)).head? := by
  induction ys with
  | nil => rfl
  | cons y t ih =>
      rw [List.filterMap_cons]
      cases hs : solve x y with
      | none => simpa [ffi_y, hs] using ih
      | some root =>
          by_cases hc : root_cond yf yl root
          · simp [ffi_y, hs, hc]
          · simpa [ffi_y, hs, hc] using ih

theorem head?_append_or {α : Type} (l m : List α) :
    (l ++ m).head? = l.head?.or m.head? := by
  cases l <;> simp

theorem ffi_x_eq_flatMap (solve : ℚ → ℚ → Option CQ) (yf yl : ℚ)
    (ys : List ℚ) (xs : List ℚ) :
    ffi_x solve yf yl ys xs =
      (xs.flatMap (fun x =>
        ys.filterMap (fun y =>
          match solve x y with
          | none => none
          | some root =>
              if root_cond yf yl root then some (x, root) else none))).head? := by
  induction xs with
  | nil => rfl
  | cons x t ih =>
      rw [List.flatMap_cons, head?_append_or, ← ffi_y_eq_filterMap]
      cases hy : ffi_y solve x yf yl ys with
      | none => simpa [ffi_x, hy] using ih
      | some r => simp [ffi_x, hy]

/-- C10: `find_first_imag` returns exactly the first candidate, in
outer-`x`-loop, inner-`y`-loop scan order, whose local solve converges to
a root lying strictly between `y_range[0]` and `y_range[-1]` with
imaginary part exceeding `1e-5` — and Python's implicit `None` (it falls
off both loops) exactly when no grid candidate qualifies. -/
theorem c10_first_imag_scan (solve : ℚ → ℚ → Option CQ)
    (x_range y_range : List ℚ) :
    find_first_imag solve x_range y_range = scanFirst solve x_range y_range := by
  unfold find_first_imag scanFirst
  exact ffi_x_eq_flatMap solve (y_range.headD 0) (y_range.getLastD 0)
    y_range x_range
